import Mathlib

/-!
Shallow embedding of the `JobsQueue`/`Job` subsystem of
`src/bazarr/app/jobs_queue.py` and the parts of the spec it realises.

Modelling conventions:
* Python `datetime.now()` is a logical clock: the state carries `now : Nat`
  and every `now()` call reads the clock and advances it by one tick.
* Argument values (Python objects stored in `args`/`kwargs`) are modelled by
  `Int`; Python truthiness of such a value is `v ≠ 0` (Python `0` is falsy).
* `kwargs` (a Python dict) is an association list `List (String × Int)`
  with first-key-wins lookup, matching dict semantics for unique keys.
* A task callable is an environment `Dispatch` mapping
  `(module, func, args, kwargs)` to `Except String Int`; `Except.error`
  models a raised exception (including unresolvable module/function).
* `deque(maxlen=n)` appends are `boundedAppend n`: append then drop from
  the front down to `n` elements.
-/

namespace Bazarr

/-- Job status strings used by `jobs_queue.py`. -/
inductive JobStatus
  | pending
  | running
  | failed
  | completed
  deriving DecidableEq, Repr

/-- The argument accepted by `update_job_progress` for `progress_value`:
Python type `Union[int, str, None]`, where the only meaningful string is
the sentinel `'max'`. -/
inductive PValArg
  | noneArg
  | intArg (v : Int)
  | maxArg
  deriving DecidableEq, Repr

/-- Python truthiness of a `progress_value` argument: `None` and `0` are
falsy, any nonzero int and the string `'max'` are truthy. -/
def PValArg.truthy : PValArg → Bool
  | .noneArg => false
  | .intArg v => v != 0
  | .maxArg => true

/-- The `Job` class of `jobs_queue.py` (its `__init__` fields). -/
structure Job where
  job_id : Nat
  job_name : String
  module : String
  func : String
  args : List Int
  kwargs : List (String × Int)
  status : JobStatus
  last_run_time : Nat
  is_progress : Bool
  progress_value : Int
  progress_max : Int
  progress_message : String
  job_returned_value : Option Int
  deriving DecidableEq, Repr

/-- `Job.__init__`: status starts at `'pending'`, `last_run_time` is stamped
with `datetime.now()` (the `time` argument here), progress counters start at
`0`/`progress_max`/`""`, returned value at `None`. -/
def mkJob (job_id : Nat) (job_name module func : String) (args : List Int)
    (kwargs : List (String × Int)) (is_progress : Bool) (progress_max : Int)
    (time : Nat) : Job :=
  { job_id := job_id
    job_name := job_name
    module := module
    func := func
    args := args
    kwargs := kwargs
    status := .pending
    last_run_time := time
    is_progress := is_progress
    progress_value := 0
    progress_max := progress_max
    progress_message := ""
    job_returned_value := none }

/-- The four containers plus the id counter of `JobsQueue.__init__`, and the
logical clock standing for `datetime.now()`. -/
structure QueueState where
  jobs_pending_queue : List Job
  jobs_running_queue : List Job
  jobs_failed_queue : List Job
  jobs_completed_queue : List Job
  current_job_id : Nat
  now : Nat
  deriving DecidableEq, Repr

/-- `JobsQueue.__init__`: all queues empty, id counter at 0. -/
def initialState : QueueState :=
  { jobs_pending_queue := []
    jobs_running_queue := []
    jobs_failed_queue := []
    jobs_completed_queue := []
    current_job_id := 0
    now := 0 }

/-- Append to a `deque(maxlen=maxlen)`: the new element goes to the tail and
the oldest elements are discarded from the head down to `maxlen`. -/
def boundedAppend (maxlen : Nat) (q : List Job) (j : Job) : List Job :=
  let grown := q ++ [j]
  grown.drop (grown.length - maxlen)

/-- The `n` most recent elements of a chronologically ordered list (used to
state what a bounded ring retains). -/
def lastN (n : Nat) (l : List Nat) : List Nat :=
  l.drop (l.length - n)

/-- A task-callable environment: resolves `(module, func)` and invokes the
callable on `(args, kwargs)`; `Except.error` models a raised exception. -/
def Dispatch : Type := String → String → List Int → List (String × Int) → Except String Int

/-- `JobsQueue.feed_jobs_pending_queue`: allocate the next id, build a
pending `Job`, append it to the tail of the pending queue, return the id.
`args`/`kwargs` default to empty when `None` is passed. -/
def feed_jobs_pending_queue (s : QueueState) (job_name module func : String)
    (args : Option (List Int)) (kwargs : Option (List (String × Int)))
    (is_progress : Bool) (progress_max : Int) : QueueState × Nat :=
  let args := args.getD []
  let kwargs := kwargs.getD []
  let new_job_id := s.current_job_id + 1
  let job := mkJob new_job_id job_name module func args kwargs is_progress progress_max s.now
  ({ s with
      jobs_pending_queue := s.jobs_pending_queue ++ [job]
      current_job_id := new_job_id
      now := s.now + 1 }, new_job_id)

/-- One enqueue request (the arguments of a `feed_jobs_pending_queue` call). -/
structure FeedReq where
  job_name : String
  module : String
  func : String
  args : Option (List Int)
  kwargs : Option (List (String × Int))
  is_progress : Bool
  progress_max : Int
  deriving Repr

/-- Apply a sequence of enqueue calls, collecting the returned ids in call
order. -/
def feedMany (s : QueueState) : List FeedReq → QueueState × List Nat
  | [] => (s, [])
  | r :: rs =>
    let fed := feed_jobs_pending_queue s r.job_name r.module r.func r.args r.kwargs
      r.is_progress r.progress_max
    let rec_result := feedMany fed.1 rs
    (rec_result.1, fed.2 :: rec_result.2)

/-- Python dict assignment `d[k] = v` on an association list: replace the
binding of `k` if present, else append it. -/
def kwSet : List (String × Int) → String → Int → List (String × Int)
  | [], k, v => [(k, v)]
  | (k0, v0) :: rest, k, v =>
    if k0 = k then (k, v) :: rest else (k0, v0) :: kwSet rest k v

/-- Lines 382-383 of `jobs_queue.py`:
`if 'job_id' not in job.kwargs or not job.kwargs['job_id']:
  job.kwargs['job_id'] = job.job_id`.
The test consults only the job's kwargs, never the callee's signature. -/
def injectJobId (job : Job) : Job :=
  match job.kwargs.lookup "job_id" with
  | none => { job with kwargs := kwSet job.kwargs "job_id" (job.job_id : Int) }
  | some v =>
    if v = 0 then { job with kwargs := kwSet job.kwargs "job_id" (job.job_id : Int) }
    else job

/-- Remove the first element equal to `j` (Python `deque.remove`). -/
def removeFirstEq : List Job → Job → List Job
  | [], _ => []
  | x :: rest, j => if x = j then rest else x :: removeFirstEq rest j

/-- Lines 380-383 of `jobs_queue.py`: the popped job as it enters the
running queue — status `'running'`, `last_run_time` stamped with the current
clock, `job_id` injected into kwargs. -/
def preparedJob (now : Nat) (j : Job) : Job :=
  injectJobId { j with status := JobStatus.running, last_run_time := now }

/-- Line 396 of `jobs_queue.py`: resolve the job's `(module, func)` in the
environment and invoke it on the job's stored arguments. -/
def invokeJob (env : Dispatch) (j : Job) : Except String Int :=
  env j.module j.func j.args j.kwargs

/-- One iteration of `JobsQueue.consume_jobs_pending_queue` when the pending
queue is non-empty: pop the head, mark it running and stamp `last_run_time`,
inject `job_id` into kwargs, push into the running queue (maxlen 1), invoke
the callable; on return mark `completed`, on exception mark `failed`, stamp
`last_run_time` again, append to the corresponding bounded ring, and remove
the job from the running queue. Returns the popped job's id and terminal
status when a job was consumed. -/
def runOneJob (env : Dispatch) (s : QueueState) : QueueState × Option (Nat × JobStatus) :=
  match s.jobs_pending_queue with
  | [] => (s, none)
  | job :: rest =>
    let started := preparedJob s.now job
    let runningQ := boundedAppend 1 s.jobs_running_queue started
    match invokeJob env started with
    | .ok v =>
      let done := { started with
        job_returned_value := some v
        status := .completed
        last_run_time := s.now + 1 }
      ({ s with
          jobs_pending_queue := rest
          jobs_running_queue := removeFirstEq runningQ started
          jobs_completed_queue := boundedAppend 10 s.jobs_completed_queue done
          now := s.now + 2 }, some (job.job_id, JobStatus.completed))
    | .error _ =>
      let done := { started with
        status := .failed
        last_run_time := s.now + 1 }
      ({ s with
          jobs_pending_queue := rest
          jobs_running_queue := removeFirstEq runningQ started
          jobs_failed_queue := boundedAppend 10 s.jobs_failed_queue done
          now := s.now + 2 }, some (job.job_id, JobStatus.failed))

/-- Drain the pending queue by iterating `runOneJob`, collecting the
`(job_id, terminal status)` events in execution order. `fuel` bounds the
number of iterations; `drain` supplies exactly the pending-queue length. -/
def drainAux (env : Dispatch) : Nat → QueueState → QueueState × List (Nat × JobStatus)
  | 0, s => (s, [])
  | fuel + 1, s =>
    match s.jobs_pending_queue with
    | [] => (s, [])
    | _ :: _ =>
      let step := runOneJob env s
      let rest := drainAux env fuel step.1
      (rest.1, step.2.toList ++ rest.2)

/-- Run the consumer until the pending queue is empty (the consumer loop's
behaviour over the currently pending jobs). -/
def drain (env : Dispatch) (s : QueueState) : QueueState × List (Nat × JobStatus) :=
  drainAux env s.jobs_pending_queue.length s

/-- The loop body of `JobsQueue.remove_job_from_pending_queue`: scan the
pending queue in order and remove the first job whose id matches and whose
status is `'pending'`; `none` when no such job exists. -/
def removeFirstPending : List Job → Nat → Option (List Job)
  | [], _ => none
  | j :: rest, job_id =>
    if j.job_id = job_id ∧ j.status = .pending then some rest
    else
      match removeFirstPending rest job_id with
      | some rest2 => some (j :: rest2)
      | none => none

/-- `JobsQueue.remove_job_from_pending_queue`: returns `true` and the state
with the job removed when a matching pending job was found, else `false`
with the state untouched. -/
def remove_job_from_pending_queue (s : QueueState) (job_id : Nat) : QueueState × Bool :=
  match removeFirstPending s.jobs_pending_queue job_id with
  | some rest => ({ s with jobs_pending_queue := rest }, true)
  | none => (s, false)

/-- The event payload built by `_build_progress_payload`. -/
structure ProgressPayload where
  job_id : Nat
  status : JobStatus
  progress_value : Int
  progress_max : Int
  progress_message : String
  deriving DecidableEq, Repr

/-- `JobsQueue._build_progress_payload`: mutate the job's progress fields
according to Python truthiness of each argument and return the updated job
together with the event payload.
`if progress_value:` — skipped for `None` and `0`; the `'max'` sentinel sets
`progress_value = progress_max = (job.progress_max or 1)` and suppresses the
separate `progress_max` update; an ordinary nonzero int is assigned as is.
`if progress_max:` — skipped for `None` and `0`.
`if progress_message:` — skipped for `""`. -/
def build_progress_payload (job : Job) (progress_value : PValArg)
    (progress_max : Option Int) (progress_message : String) : Job × ProgressPayload :=
  let step1 :=
    match progress_value with
    | .maxArg =>
      let snapped := if job.progress_max = 0 then 1 else job.progress_max
      ({ job with progress_value := snapped, progress_max := snapped }, true)
    | .intArg v =>
      if v = 0 then (job, false) else ({ job with progress_value := v }, false)
    | .noneArg => (job, false)
  let job1 := step1.1
  let progress_max_updated := step1.2
  let job2 :=
    match progress_max with
    | some m =>
      if m = 0 ∨ progress_max_updated then job1 else { job1 with progress_max := m }
    | none => job1
  let job3 :=
    if progress_message = "" then job2 else { job2 with progress_message := progress_message }
  (job3, { job_id := job3.job_id
           status := job3.status
           progress_value := job3.progress_value
           progress_max := job3.progress_max
           progress_message := job3.progress_message })

/-- The loop of `JobsQueue.update_job_progress` over the running queue:
update the first job whose id matches, report whether one was found. -/
def updateRunning (rq : List Job) (job_id : Nat) (progress_value : PValArg)
    (progress_max : Option Int) (progress_message : String) : List Job × Bool :=
  match rq with
  | [] => ([], false)
  | j :: rest =>
    if j.job_id = job_id then
      ((build_progress_payload j progress_value progress_max progress_message).1 :: rest, true)
    else
      let rec_result := updateRunning rest job_id progress_value progress_max progress_message
      (j :: rec_result.1, rec_result.2)

/-- `JobsQueue.update_job_progress`: locate the job in the running queue
only; update it and return `true`, or return `false` when absent. -/
def update_job_progress (s : QueueState) (job_id : Nat) (progress_value : PValArg)
    (progress_max : Option Int) (progress_message : String) : QueueState × Bool :=
  let upd := updateRunning s.jobs_running_queue job_id progress_value progress_max progress_message
  ({ s with jobs_running_queue := upd.1 }, upd.2)

/-- Rename a single job when its id matches. -/
def renameJob (job_id : Nat) (new_job_name : String) (j : Job) : Job :=
  if j.job_id = job_id then { j with job_name := new_job_name } else j

/-- Modelled from the spec: the rename operation (`rename(job_id, new_name)`
in the spec; invoked as `jobs_queue.update_job_name(job_id=…, new_job_name=…)`
by `subtitles/tools/translate/main.py` and `sonarr/sync/episodes.py`) is
absent from `src/bazarr/app/jobs_queue.py`, so it is modelled from the
spec's words: "updates the display name … mutation on a field with no
validity constraints", usable on any job id including completed jobs. -/
def update_job_name (s : QueueState) (job_id : Nat) (new_job_name : String) : QueueState :=
  { s with
      jobs_pending_queue := s.jobs_pending_queue.map (renameJob job_id new_job_name)
      jobs_running_queue := s.jobs_running_queue.map (renameJob job_id new_job_name)
      jobs_failed_queue := s.jobs_failed_queue.map (renameJob job_id new_job_name)
      jobs_completed_queue := s.jobs_completed_queue.map (renameJob job_id new_job_name) }

/-- All jobs currently tracked by the queue, in the queue order used by
`list_jobs_from_queue` (pending, running, failed, completed). -/
def allJobs (s : QueueState) : List Job :=
  s.jobs_pending_queue ++ s.jobs_running_queue ++ s.jobs_failed_queue ++ s.jobs_completed_queue

/-! Concrete environments and states used to instantiate the theorems. -/

/-- An environment whose every callable returns normally. -/
def envOkAll : Dispatch := fun _ _ _ _ => Except.ok 7

/-- An environment whose every callable raises. -/
def envFailAll : Dispatch := fun _ _ _ _ => Except.error "boom"

/-- A concrete pending job with id 1. -/
def jA : Job := mkJob 1 "A" "m" "f" [] [] false 0 0

/-- A concrete pending job with id 2. -/
def jB : Job := mkJob 2 "B" "m" "g" [] [] false 0 1

/-- A queue holding the two pending jobs `jA`, `jB`. -/
def pendingTwoState : QueueState :=
  { initialState with jobs_pending_queue := [jA, jB], current_job_id := 2, now := 2 }

/-- A concrete running progress job with id 5 and `progress_max = 0`. -/
def runningJob : Job :=
  { mkJob 5 "P" "m" "f" [] [] true 0 0 with status := JobStatus.running }

/-- A queue whose running queue holds `runningJob`. -/
def runningState : QueueState :=
  { initialState with jobs_running_queue := [runningJob] }

/-- A concrete completed job with id 7. -/
def completedJob7 : Job :=
  { mkJob 7 "orig" "m" "f" [] [] false 0 3 with status := JobStatus.completed }

/-- A queue whose completed ring holds `completedJob7`. -/
def completedState : QueueState :=
  { initialState with jobs_completed_queue := [completedJob7] }

/-- Eleven concrete pending jobs with ids 1 through 11. -/
def elevenState : QueueState :=
  { initialState with
      jobs_pending_queue := (List.range 11).map (fun i => mkJob (i + 1) "J" "m" "f" [] [] false 0 0)
      current_job_id := 11 }

/-- Three concrete enqueue requests. -/
def sampleReqs : List FeedReq :=
  [{ job_name := "A", module := "m", func := "f", args := none, kwargs := none,
     is_progress := false, progress_max := 0 },
   { job_name := "B", module := "m", func := "g", args := some [3], kwargs := none,
     is_progress := false, progress_max := 0 },
   { job_name := "C", module := "m", func := "h", args := none, kwargs := some [("x", 1)],
     is_progress := true, progress_max := 4 }]

/-! Helper lemmas. -/

/-- `injectJobId` changes at most the kwargs of a job. -/
theorem injectJobId_eq_kwargs (j : Job) : ∃ kw, injectJobId j = { j with kwargs := kw } := by
  unfold injectJobId
  rcases List.lookup "job_id" j.kwargs with _ | v
  · exact ⟨_, rfl⟩
  · by_cases hv : v = 0
    · simp only [hv, if_pos rfl]
      exact ⟨_, rfl⟩
    · simp only [if_neg hv]
      exact ⟨j.kwargs, rfl⟩

/-- The prepared job keeps the popped job's id. -/
theorem preparedJob_job_id (now : Nat) (j : Job) : (preparedJob now j).job_id = j.job_id := by
  unfold preparedJob
  obtain ⟨kw, hkw⟩ := injectJobId_eq_kwargs { j with status := JobStatus.running, last_run_time := now }
  rw [hkw]

/-- The prepared job carries the pop-time `last_run_time` stamp. -/
theorem preparedJob_last_run_time (now : Nat) (j : Job) :
    (preparedJob now j).last_run_time = now := by
  unfold preparedJob
  obtain ⟨kw, hkw⟩ := injectJobId_eq_kwargs { j with status := JobStatus.running, last_run_time := now }
  rw [hkw]

/-- Appending to the running queue of capacity 1 and then removing the
appended job empties the running queue. -/
theorem runningCleared (q : List Job) (x : Job) :
    removeFirstEq (boundedAppend 1 q x) x = [] := by
  have h1 : boundedAppend 1 q x = [x] := by
    show (q ++ [x]).drop ((q ++ [x]).length - 1) = [x]
    rw [List.length_append]
    simp only [List.length_singleton, Nat.add_sub_cancel]
    exact List.drop_left q [x]
  rw [h1]
  simp [removeFirstEq]

/-- Equation for the consumer step when the callable returns normally. -/
theorem runOneJob_eq_ok (env : Dispatch) (s : QueueState) (j : Job) (rest : List Job) (v : Int)
    (hp : s.jobs_pending_queue = j :: rest)
    (henv : invokeJob env (preparedJob s.now j) = Except.ok v) :
    runOneJob env s =
      ({ s with
          jobs_pending_queue := rest
          jobs_running_queue := []
          jobs_completed_queue := boundedAppend 10 s.jobs_completed_queue
            { preparedJob s.now j with
                job_returned_value := some v
                status := JobStatus.completed
                last_run_time := s.now + 1 }
          now := s.now + 2 }, some (j.job_id, JobStatus.completed)) := by
  rcases s with ⟨p, rq, fq, cq, cid, now⟩
  dsimp at hp henv ⊢
  subst hp
  simp [runOneJob, henv, runningCleared]

/-- Equation for the consumer step when the callable raises. -/
theorem runOneJob_eq_err (env : Dispatch) (s : QueueState) (j : Job) (rest : List Job) (e : String)
    (hp : s.jobs_pending_queue = j :: rest)
    (henv : invokeJob env (preparedJob s.now j) = Except.error e) :
    runOneJob env s =
      ({ s with
          jobs_pending_queue := rest
          jobs_running_queue := []
          jobs_failed_queue := boundedAppend 10 s.jobs_failed_queue
            { preparedJob s.now j with
                status := JobStatus.failed
                last_run_time := s.now + 1 }
          now := s.now + 2 }, some (j.job_id, JobStatus.failed)) := by
  rcases s with ⟨p, rq, fq, cq, cid, now⟩
  dsimp at hp henv ⊢
  subst hp
  simp [runOneJob, henv, runningCleared]

/-- Draining with enough fuel executes exactly the pending jobs in queue
order, empties the pending queue, and gives every executed job a terminal
status. -/
theorem drainAux_spec (env : Dispatch) :
    ∀ (fuel : Nat) (s : QueueState), s.jobs_pending_queue.length ≤ fuel →
      (drainAux env fuel s).2.map Prod.fst = s.jobs_pending_queue.map Job.job_id ∧
      (drainAux env fuel s).1.jobs_pending_queue = [] ∧
      ∀ ev ∈ (drainAux env fuel s).2, ev.2 = JobStatus.completed ∨ ev.2 = JobStatus.failed := by
  intro fuel
  induction fuel with
  | zero =>
    intro s h
    have hnil : s.jobs_pending_queue = [] := List.length_eq_zero.mp (Nat.le_zero.mp h)
    simp [drainAux, hnil]
  | succ n ih =>
    intro s h
    rcases hp : s.jobs_pending_queue with _ | ⟨j, rest⟩
    · simp [drainAux, hp]
    · have hlen : rest.length ≤ n := by
        rw [hp] at h
        simpa using h
      rcases henv : invokeJob env (preparedJob s.now j) with e | v
      · have heq := runOneJob_eq_err env s j rest e hp henv
        have ihs := ih (runOneJob env s).1 (by rw [heq]; simpa using hlen)
        rw [heq] at ihs
        simp only [drainAux, hp, heq]
        refine ⟨?_, ihs.2.1, ?_⟩
        · simp [ihs.1, hp]
        · intro ev hev
          rcases List.mem_cons.mp (by simpa using hev) with h1 | h2
          · subst h1; right; rfl
          · exact ihs.2.2 ev h2
      · have heq := runOneJob_eq_ok env s j rest v hp henv
        have ihs := ih (runOneJob env s).1 (by rw [heq]; simpa using hlen)
        rw [heq] at ihs
        simp only [drainAux, hp, heq]
        refine ⟨?_, ihs.2.1, ?_⟩
        · simp [ihs.1, hp]
        · intro ev hev
          rcases List.mem_cons.mp (by simpa using hev) with h1 | h2
          · subst h1; left; rfl
          · exact ihs.2.2 ev h2

/-- A sequence of enqueues appends jobs carrying the returned ids, in call
order, to the tail of the pending queue. -/
theorem feedMany_pending_ids : ∀ (reqs : List FeedReq) (s : QueueState),
    (feedMany s reqs).1.jobs_pending_queue.map Job.job_id =
      s.jobs_pending_queue.map Job.job_id ++ (feedMany s reqs).2 := by
  intro reqs
  induction reqs with
  | nil => intro s; simp [feedMany]
  | cons r rs ih =>
    intro s
    simp only [feedMany]
    rw [ih (feed_jobs_pending_queue s r.job_name r.module r.func r.args r.kwargs
      r.is_progress r.progress_max).1]
    simp [feed_jobs_pending_queue, mkJob]

/-! Claim theorems. -/

/-- C2 (FIFO execution order): for every sequence of enqueue calls producing
jobs J1..Jn on an initially empty pending queue, the consumer loop pops and
executes the jobs in exactly the enqueue order: the trace of executed job
ids equals the list of ids handed out by the enqueue calls, in call order. -/
theorem claim_C2_fifo_order (env : Dispatch) (s : QueueState) (reqs : List FeedReq)
    (h : s.jobs_pending_queue = []) :
    (drain env (feedMany s reqs).1).2.map Prod.fst = (feedMany s reqs).2 := by
  have hd := drainAux_spec env (feedMany s reqs).1.jobs_pending_queue.length
    (feedMany s reqs).1 le_rfl
  have hids := feedMany_pending_ids reqs s
  rw [h] at hids
  simp only [List.map_nil, List.nil_append] at hids
  unfold drain
  rw [hd.1, hids]

/-- Witness for C2: three concrete enqueues on the empty queue execute as
ids 1, 2, 3 in order. -/
theorem claim_C2_fifo_order_witness :
    (drain envOkAll (feedMany initialState sampleReqs).1).2.map Prod.fst =
      (feedMany initialState sampleReqs).2 :=
  claim_C2_fifo_order envOkAll initialState sampleReqs rfl

/-- C1 (failure isolation): if the callable of the job at the head of the
pending queue raises, that job ends with status `failed` and is appended to
the failed ring; the consumer step returns normally (reporting the failure
instead of re-raising); and every job still pending after it is executed to
its own terminal status, in order, leaving the pending queue empty. -/
theorem claim_C1_failure_isolation (env : Dispatch) (s : QueueState) (j : Job)
    (rest : List Job) (hp : s.jobs_pending_queue = j :: rest)
    (herr : ∃ e, invokeJob env (preparedJob s.now j) = Except.error e) :
    (∃ jf, jf.job_id = j.job_id ∧ jf.status = JobStatus.failed ∧
       jf.last_run_time = s.now + 1 ∧
       (runOneJob env s).1.jobs_failed_queue = boundedAppend 10 s.jobs_failed_queue jf) ∧
    (runOneJob env s).2 = some (j.job_id, JobStatus.failed) ∧
    (drain env (runOneJob env s).1).2.map Prod.fst = rest.map Job.job_id ∧
    (∀ ev ∈ (drain env (runOneJob env s).1).2,
       ev.2 = JobStatus.completed ∨ ev.2 = JobStatus.failed) ∧
    (drain env (runOneJob env s).1).1.jobs_pending_queue = [] := by
  obtain ⟨e, henv⟩ := herr
  have heq := runOneJob_eq_err env s j rest e hp henv
  have hd := drainAux_spec env (runOneJob env s).1.jobs_pending_queue.length
    (runOneJob env s).1 le_rfl
  refine ⟨⟨{ preparedJob s.now j with status := JobStatus.failed, last_run_time := s.now + 1 },
    ?_, rfl, rfl, ?_⟩, ?_, ?_, ?_, ?_⟩
  · simpa using preparedJob_job_id s.now j
  · rw [heq]
  · rw [heq]
  · unfold drain at *
    rw [hd.1, heq]
  · exact fun ev hev => hd.2.2 ev hev
  · exact hd.2.1

/-- Witness for C1: with an always-raising environment and two pending jobs,
the first ends failed and the second still executes. -/
theorem claim_C1_failure_isolation_witness :
    (runOneJob envFailAll pendingTwoState).2 = some (jA.job_id, JobStatus.failed) ∧
    (drain envFailAll (runOneJob envFailAll pendingTwoState).1).2.map Prod.fst =
      [jB].map Job.job_id := by
  have h := claim_C1_failure_isolation envFailAll pendingTwoState jA [jB] rfl ⟨"boom", rfl⟩
  exact ⟨h.2.1, h.2.2.1⟩

/-- The pending-queue scan finds nothing exactly when no pending job with
the given id is in the queue. -/
theorem removeFirstPending_eq_none (l : List Job) (id : Nat) :
    removeFirstPending l id = none ↔
      ∀ j ∈ l, ¬(j.job_id = id ∧ j.status = JobStatus.pending) := by
  induction l with
  | nil => simp [removeFirstPending]
  | cons j rest ih =>
    by_cases h : j.job_id = id ∧ j.status = JobStatus.pending
    · simp only [removeFirstPending, if_pos h]
      constructor
      · intro hc; exact absurd hc (by simp)
      · intro hall; exact absurd h (hall j (List.mem_cons_self j rest))
    · simp only [removeFirstPending, if_neg h]
      rcases hr : removeFirstPending rest id with _ | rest2
      · constructor
        · intro _ j2 hj2
          rcases List.mem_cons.mp hj2 with rfl | hmem
          · exact h
          · exact (ih.mp hr) j2 hmem
        · intro _; rfl
      · constructor
        · intro hc; exact absurd hc (by simp)
        · intro hall
          have hnone : removeFirstPending rest id = none :=
            ih.mpr (fun j2 hj2 => hall j2 (List.mem_cons_of_mem j hj2))
          rw [hr] at hnone; cases hnone

/-- A successful pending-queue scan removes exactly one matching pending
job, keeping the rest of the queue in order. -/
theorem removeFirstPending_eq_some : ∀ (l : List Job) (id : Nat) (l2 : List Job),
    removeFirstPending l id = some l2 →
    ∃ l0 j l1, l = l0 ++ j :: l1 ∧ l2 = l0 ++ l1 ∧
      j.job_id = id ∧ j.status = JobStatus.pending := by
  intro l id
  induction l with
  | nil => intro l2 h; simp [removeFirstPending] at h
  | cons j rest ih =>
    intro l2 h
    by_cases hj : j.job_id = id ∧ j.status = JobStatus.pending
    · simp only [removeFirstPending, if_pos hj] at h
      exact ⟨[], j, rest, by simp, by simp [← Option.some.inj h], hj.1, hj.2⟩
    · simp only [removeFirstPending, if_neg hj] at h
      rcases hr : removeFirstPending rest id with _ | rest2
      · rw [hr] at h; cases h
      · rw [hr] at h
        obtain ⟨l0, j2, l1, heq, heq2, hid, hst⟩ := ih rest2 hr
        exact ⟨j :: l0, j2, l1, by simp [heq], by simp [← Option.some.inj h, heq2], hid, hst⟩

/-- C3 (delete semantics): `remove_job_from_pending_queue` returns true and
removes the job if and only if a job with that id and status `pending` is
in the pending queue; otherwise it returns false and the state is
untouched. On success exactly that job is removed (order preserved) and the
other queues are unchanged. -/
theorem claim_C3_delete_semantics (s : QueueState) (job_id : Nat) :
    ((remove_job_from_pending_queue s job_id).2 = true ↔
      ∃ j ∈ s.jobs_pending_queue, j.job_id = job_id ∧ j.status = JobStatus.pending) ∧
    ((remove_job_from_pending_queue s job_id).2 = false →
      (remove_job_from_pending_queue s job_id).1 = s) ∧
    ((remove_job_from_pending_queue s job_id).2 = true →
      ∃ l0 j l1, s.jobs_pending_queue = l0 ++ j :: l1 ∧ j.job_id = job_id ∧
        j.status = JobStatus.pending ∧
        (remove_job_from_pending_queue s job_id).1 = { s with jobs_pending_queue := l0 ++ l1 }) := by
  unfold remove_job_from_pending_queue
  rcases hr : removeFirstPending s.jobs_pending_queue job_id with _ | rest
  · refine ⟨?_, fun _ => rfl, fun hc => absurd hc (by simp)⟩
    constructor
    · intro hc; exact absurd hc (by simp)
    · intro ⟨j, hj, hid, hst⟩
      exact absurd ⟨hid, hst⟩ ((removeFirstPending_eq_none s.jobs_pending_queue job_id).mp hr j hj)
  · obtain ⟨l0, j, l1, heq, heq2, hid, hst⟩ :=
      removeFirstPending_eq_some s.jobs_pending_queue job_id rest hr
    refine ⟨?_, fun hc => absurd hc (by simp), fun _ => ⟨l0, j, l1, heq, hid, hst, ?_⟩⟩
    · constructor
      · intro _
        exact ⟨j, by rw [heq]; exact List.mem_append_right l0 (List.mem_cons_self j l1), hid, hst⟩
      · intro _; rfl
    · simp [heq2]

/-- Witness for C3: deleting id 3, which is not pending in the two-job
queue, returns false and leaves the state untouched. -/
theorem claim_C3_delete_semantics_witness :
    (remove_job_from_pending_queue pendingTwoState 3).1 = pendingTwoState :=
  (claim_C3_delete_semantics pendingTwoState 3).2.1 (by decide)

/-- The progress value written by `_build_progress_payload`, by case on the
`progress_value` argument. -/
theorem build_progress_payload_value (job : Job) (pv : PValArg) (pm : Option Int)
    (msg : String) :
    ((build_progress_payload job pv pm msg).1).progress_value =
      match pv with
      | .noneArg => job.progress_value
      | .intArg v => if v = 0 then job.progress_value else v
      | .maxArg => if job.progress_max = 0 then 1 else job.progress_max := by
  have hmsg := Decidable.em (msg = "")
  rcases pv with _ | v | _
  · rcases pm with _ | m
    · rcases hmsg with hmsg | hmsg <;> simp [build_progress_payload, hmsg]
    · rcases Decidable.em (m = 0) with hm | hm <;> rcases hmsg with hmsg | hmsg <;>
        simp [build_progress_payload, hm, hmsg]
  · rcases Decidable.em (v = 0) with hv | hv <;> rcases pm with _ | m
    · rcases hmsg with hmsg | hmsg <;> simp [build_progress_payload, hv, hmsg]
    · rcases Decidable.em (m = 0) with hm | hm <;> rcases hmsg with hmsg | hmsg <;>
        simp [build_progress_payload, hv, hm, hmsg]
    · rcases hmsg with hmsg | hmsg <;> simp [build_progress_payload, hv, hmsg]
    · rcases Decidable.em (m = 0) with hm | hm <;> rcases hmsg with hmsg | hmsg <;>
        simp [build_progress_payload, hv, hm, hmsg]
  · rcases Decidable.em (job.progress_max = 0) with hm0 | hm0 <;> rcases pm with _ | m
    · rcases hmsg with hmsg | hmsg <;> simp [build_progress_payload, hm0, hmsg]
    · rcases Decidable.em (m = 0) with hm | hm <;> rcases hmsg with hmsg | hmsg <;>
        simp [build_progress_payload, hm0, hm, hmsg]
    · rcases hmsg with hmsg | hmsg <;> simp [build_progress_payload, hm0, hmsg]
    · rcases Decidable.em (m = 0) with hm | hm <;> rcases hmsg with hmsg | hmsg <;>
        simp [build_progress_payload, hm0, hm, hmsg]

/-- The `'max'` sentinel always leaves `progress_value = progress_max`
(both snapped to `progress_max or 1`), whatever the other arguments are. -/
theorem build_progress_payload_max (job : Job) (pm : Option Int) (msg : String) :
    ((build_progress_payload job PValArg.maxArg pm msg).1).progress_value =
      ((build_progress_payload job PValArg.maxArg pm msg).1).progress_max ∧
    ((build_progress_payload job PValArg.maxArg pm msg).1).job_id = job.job_id := by
  have hmsg := Decidable.em (msg = "")
  rcases Decidable.em (job.progress_max = 0) with hm0 | hm0 <;> rcases pm with _ | m
  · rcases hmsg with hmsg | hmsg <;> simp [build_progress_payload, hm0, hmsg]
  · rcases Decidable.em (m = 0) with hm | hm <;> rcases hmsg with hmsg | hmsg <;>
      simp [build_progress_payload, hm0, hm, hmsg]
  · rcases hmsg with hmsg | hmsg <;> simp [build_progress_payload, hm0, hmsg]
  · rcases Decidable.em (m = 0) with hm | hm <;> rcases hmsg with hmsg | hmsg <;>
      simp [build_progress_payload, hm0, hm, hmsg]

/-- A falsy `progress_max` argument (and no `'max'` sentinel) leaves the
job's `progress_max` unchanged. -/
theorem build_progress_payload_max_frame (job : Job) (v : Int) (pm : Option Int)
    (msg : String) (hpm : pm = none ∨ pm = some 0) :
    ((build_progress_payload job (PValArg.intArg v) pm msg).1).progress_max =
      job.progress_max := by
  have hmsg := Decidable.em (msg = "")
  rcases Decidable.em (v = 0) with hv | hv <;> rcases hpm with rfl | rfl <;>
    rcases hmsg with hmsg | hmsg <;> simp [build_progress_payload, hv, hmsg]

/-- An empty `progress_message` argument leaves the message unchanged. -/
theorem build_progress_payload_msg_frame (job : Job) (pv : PValArg) (pm : Option Int) :
    ((build_progress_payload job pv pm "").1).progress_message =
      job.progress_message := by
  rcases pv with _ | v | _
  · rcases pm with _ | m
    · simp [build_progress_payload]
    · rcases Decidable.em (m = 0) with hm | hm <;> simp [build_progress_payload, hm]
  · rcases Decidable.em (v = 0) with hv | hv <;> rcases pm with _ | m
    · simp [build_progress_payload, hv]
    · rcases Decidable.em (m = 0) with hm | hm <;> simp [build_progress_payload, hv, hm]
    · simp [build_progress_payload, hv]
    · rcases Decidable.em (m = 0) with hm | hm <;> simp [build_progress_payload, hv, hm]
  · rcases Decidable.em (job.progress_max = 0) with hm0 | hm0 <;> rcases pm with _ | m
    · simp [build_progress_payload, hm0]
    · rcases Decidable.em (m = 0) with hm | hm <;> simp [build_progress_payload, hm0, hm]
    · simp [build_progress_payload, hm0]
    · rcases Decidable.em (m = 0) with hm | hm <;> simp [build_progress_payload, hm0, hm]

/-- `_build_progress_payload` never touches the job's identity fields. -/
theorem build_progress_payload_frame (job : Job) (pv : PValArg) (pm : Option Int)
    (msg : String) :
    ((build_progress_payload job pv pm msg).1).job_id = job.job_id ∧
    ((build_progress_payload job pv pm msg).1).status = job.status ∧
    ((build_progress_payload job pv pm msg).1).job_name = job.job_name := by
  have hmsg := Decidable.em (msg = "")
  rcases pv with _ | v | _
  · rcases pm with _ | m
    · rcases hmsg with hmsg | hmsg <;> simp [build_progress_payload, hmsg]
    · rcases Decidable.em (m = 0) with hm | hm <;> rcases hmsg with hmsg | hmsg <;>
        simp [build_progress_payload, hm, hmsg]
  · rcases Decidable.em (v = 0) with hv | hv <;> rcases pm with _ | m
    · rcases hmsg with hmsg | hmsg <;> simp [build_progress_payload, hv, hmsg]
    · rcases Decidable.em (m = 0) with hm | hm <;> rcases hmsg with hmsg | hmsg <;>
        simp [build_progress_payload, hv, hm, hmsg]
    · rcases hmsg with hmsg | hmsg <;> simp [build_progress_payload, hv, hmsg]
    · rcases Decidable.em (m = 0) with hm | hm <;> rcases hmsg with hmsg | hmsg <;>
        simp [build_progress_payload, hv, hm, hmsg]
  · rcases Decidable.em (job.progress_max = 0) with hm0 | hm0 <;> rcases pm with _ | m
    · rcases hmsg with hmsg | hmsg <;> simp [build_progress_payload, hm0, hmsg]
    · rcases Decidable.em (m = 0) with hm | hm <;> rcases hmsg with hmsg | hmsg <;>
        simp [build_progress_payload, hm0, hm, hmsg]
    · rcases hmsg with hmsg | hmsg <;> simp [build_progress_payload, hm0, hmsg]
    · rcases Decidable.em (m = 0) with hm | hm <;> rcases hmsg with hmsg | hmsg <;>
        simp [build_progress_payload, hm0, hm, hmsg]

/-- All-falsy arguments make `_build_progress_payload` the identity on the
job. -/
theorem build_progress_payload_falsy (job : Job) :
    (build_progress_payload job (PValArg.intArg 0) (some 0) "").1 = job := by
  simp [build_progress_payload]

/-- A nonzero `progress_value` can never become 0 through a progress
update: the only written values are nonzero integers or `progress_max or 1`. -/
theorem build_progress_payload_value_ne_zero (job : Job) (pv : PValArg)
    (pm : Option Int) (msg : String) (h : job.progress_value ≠ 0) :
    ((build_progress_payload job pv pm msg).1).progress_value ≠ 0 := by
  rw [build_progress_payload_value]
  rcases pv with _ | v | _
  · exact h
  · by_cases hv : v = 0
    · simpa [hv] using h
    · simp only [if_neg hv]
      exact hv
  · by_cases hm : job.progress_max = 0 <;> simp [hm]

/-- When some running job has the given id, `update_job_progress` finds the
first such job, replaces it by its updated version, and returns true. -/
theorem updateRunning_found : ∀ (rq : List Job) (id : Nat) (pv : PValArg)
    (pm : Option Int) (msg : String), (∃ j ∈ rq, j.job_id = id) →
    (updateRunning rq id pv pm msg).2 = true ∧
    ∃ j ∈ rq, j.job_id = id ∧
      (build_progress_payload j pv pm msg).1 ∈ (updateRunning rq id pv pm msg).1 := by
  intro rq id pv pm msg
  induction rq with
  | nil => intro ⟨j, hj, _⟩; cases hj
  | cons j rest ih =>
    intro ⟨j2, hj2, hid⟩
    by_cases h : j.job_id = id
    · simp only [updateRunning, if_pos h]
      exact ⟨trivial, j, List.mem_cons_self j rest, h, List.mem_cons_self _ _⟩
    · have hmem : j2 ∈ rest := by
        rcases List.mem_cons.mp hj2 with rfl | hm
        · exact absurd hid h
        · exact hm
      obtain ⟨h2, j3, hj3, hid3, hmem3⟩ := ih ⟨j2, hmem, hid⟩
      simp only [updateRunning, if_neg h]
      exact ⟨h2, j3, List.mem_cons_of_mem j hj3, hid3, List.mem_cons_of_mem j hmem3⟩

/-- All-falsy arguments leave the whole running queue unchanged, and the
call still reports success when the id is present. -/
theorem updateRunning_falsy (rq : List Job) (id : Nat) :
    (updateRunning rq id (PValArg.intArg 0) (some 0) "").1 = rq ∧
    ((∃ j ∈ rq, j.job_id = id) →
      (updateRunning rq id (PValArg.intArg 0) (some 0) "").2 = true) := by
  induction rq with
  | nil => simp [updateRunning]
  | cons j rest ih =>
    by_cases h : j.job_id = id
    · simp only [updateRunning, if_pos h]
      exact ⟨by rw [build_progress_payload_falsy], fun _ => trivial⟩
    · simp only [updateRunning, if_neg h]
      refine ⟨by rw [ih.1], ?_⟩
      intro ⟨j2, hj2, hid⟩
      have hmem : j2 ∈ rest := by
        rcases List.mem_cons.mp hj2 with rfl | hm
        · exact absurd hid h
        · exact hm
      exact ih.2 ⟨j2, hmem, hid⟩

/-- C8 (the `'max'` sentinel): calling `update_job_progress` with
`progress_value = 'max'` on a job in the running queue returns true and
leaves that job with `progress_value = progress_max` (snapping a zero
`progress_max` to 1 first). -/
theorem claim_C8_max_sentinel (s : QueueState) (id : Nat) (pm : Option Int)
    (msg : String) (h : ∃ j ∈ s.jobs_running_queue, j.job_id = id) :
    (update_job_progress s id PValArg.maxArg pm msg).2 = true ∧
    ∃ j ∈ (update_job_progress s id PValArg.maxArg pm msg).1.jobs_running_queue,
      j.job_id = id ∧ j.progress_value = j.progress_max := by
  obtain ⟨hb, j, hj, hid, hmem⟩ := updateRunning_found s.jobs_running_queue id
    PValArg.maxArg pm msg h
  unfold update_job_progress
  refine ⟨hb, (build_progress_payload j PValArg.maxArg pm msg).1, by simpa using hmem,
    ?_, (build_progress_payload_max j pm msg).1⟩
  rw [(build_progress_payload_max j pm msg).2, hid]

/-- Witness for C8: the running job with id 5 and `progress_max = 0` ends
with `progress_value = progress_max` and the call returns true. -/
theorem claim_C8_max_sentinel_witness :
    (update_job_progress runningState 5 PValArg.maxArg none "").2 = true ∧
    ∃ j ∈ (update_job_progress runningState 5 PValArg.maxArg none "").1.jobs_running_queue,
      j.job_id = 5 ∧ j.progress_value = j.progress_max :=
  claim_C8_max_sentinel runningState 5 none "" ⟨runningJob, by decide, by decide⟩

/-- C10 (implicit falsy-argument no-op): for a job in the running queue, a
progress update whose arguments are all falsy (`0`, `0`, `""`) changes
nothing and still returns true; a nonzero `progress_value` can never be
reset to 0; and with an integer value argument each falsy argument leaves
its field unchanged while identity fields are never touched. -/
theorem claim_C10_falsy_noop (s : QueueState) (id : Nat)
    (h : ∃ j ∈ s.jobs_running_queue, j.job_id = id) :
    ((update_job_progress s id (PValArg.intArg 0) (some 0) "").1 = s ∧
     (update_job_progress s id (PValArg.intArg 0) (some 0) "").2 = true) ∧
    (∀ (job : Job) (pv : PValArg) (pm : Option Int) (msg : String),
       job.progress_value ≠ 0 →
       ((build_progress_payload job pv pm msg).1).progress_value ≠ 0) ∧
    (∀ (job : Job) (v : Int) (pm : Option Int) (msg : String),
       (v = 0 →
         ((build_progress_payload job (PValArg.intArg v) pm msg).1).progress_value =
           job.progress_value) ∧
       ((pm = none ∨ pm = some 0) →
         ((build_progress_payload job (PValArg.intArg v) pm msg).1).progress_max =
           job.progress_max) ∧
       (msg = "" →
         ((build_progress_payload job (PValArg.intArg v) pm msg).1).progress_message =
           job.progress_message) ∧
       ((build_progress_payload job (PValArg.intArg v) pm msg).1).job_id = job.job_id ∧
       ((build_progress_payload job (PValArg.intArg v) pm msg).1).status = job.status) := by
  refine ⟨⟨?_, ?_⟩, build_progress_payload_value_ne_zero, ?_⟩
  · simp only [update_job_progress]
    rw [(updateRunning_falsy s.jobs_running_queue id).1]
  · simp only [update_job_progress]
    exact (updateRunning_falsy s.jobs_running_queue id).2 h
  · intro job v pm msg
    refine ⟨?_, build_progress_payload_max_frame job v pm msg, ?_,
      (build_progress_payload_frame job (PValArg.intArg v) pm msg).1,
      (build_progress_payload_frame job (PValArg.intArg v) pm msg).2.1⟩
    · intro hv
      rw [build_progress_payload_value]
      simp [hv]
    · intro hmsg
      subst hmsg
      exact build_progress_payload_msg_frame job (PValArg.intArg v) pm

/-- Witness for C10: the all-falsy update on the concrete running queue is
a no-op returning true. -/
theorem claim_C10_falsy_noop_witness :
    (update_job_progress runningState 5 (PValArg.intArg 0) (some 0) "").1 = runningState ∧
    (update_job_progress runningState 5 (PValArg.intArg 0) (some 0) "").2 = true :=
  (claim_C10_falsy_noop runningState 5 ⟨runningJob, by decide, by decide⟩).1

/-- C4 counterexample: progress bounds are NOT maintained — starting from a
running job satisfying `0 ≤ progress_value ≤ progress_max` (value 0, max
0), the integer update `progress_value = 5` leaves value 5 above max 0, so
the claimed invariant fails after a single `update_progress` call. -/
theorem claim_C4_counterexample :
    ¬ (∀ (s : QueueState) (id : Nat) (v : Int) (pm : Option Int) (msg : String),
        (∀ j ∈ s.jobs_running_queue,
          0 ≤ j.progress_value ∧ j.progress_value ≤ j.progress_max) →
        ∀ j ∈ ((update_job_progress s id (PValArg.intArg v) pm msg).1).jobs_running_queue,
          0 ≤ j.progress_value ∧ j.progress_value ≤ j.progress_max) := by
  intro h
  exact absurd (h runningState 5 5 none "" (by decide)) (by decide)

/-- C4 amended: `update_progress` stores a nonzero integer argument in
`progress_value` verbatim, with no clamping to `[0, progress_max]`; the
bounds invariant therefore holds only if callers pass in-bounds values. -/
theorem claim_C4_amended (job : Job) (v : Int) (pm : Option Int) (msg : String)
    (h : v ≠ 0) :
    ((build_progress_payload job (PValArg.intArg v) pm msg).1).progress_value = v := by
  rw [build_progress_payload_value]
  simp [h]

/-- Witness for C4 amended: a negative update value is stored verbatim. -/
theorem claim_C4_amended_witness :
    ((build_progress_payload runningJob (PValArg.intArg (-3)) none "").1).progress_value = -3 :=
  claim_C4_amended runningJob (-3) none "" (by decide)

/-- Renaming a job gives it the new name exactly when its id matches. -/
theorem renameJob_name (id : Nat) (nm : String) (a : Job) :
    (renameJob id nm a).job_id = id → (renameJob id nm a).job_name = nm := by
  unfold renameJob
  by_cases h : a.job_id = id
  · simp [h]
  · simp only [if_neg h]
    intro hid
    exact absurd hid h

/-- Renaming never changes a job's status or id. -/
theorem renameJob_frame (id : Nat) (nm : String) (a : Job) :
    (renameJob id nm a).status = a.status ∧ (renameJob id nm a).job_id = a.job_id := by
  unfold renameJob
  by_cases h : a.job_id = id <;> simp [h]

/-- C5 (rename operation): `update_job_name` updates the display name of
every job with the given id, in whichever queue it lives — including the
completed queue, whose statuses and ids it leaves untouched — with no
constraint on the new name. -/
theorem claim_C5_rename (s : QueueState) (id : Nat) (nm : String) :
    (∀ j ∈ allJobs (update_job_name s id nm), j.job_id = id → j.job_name = nm) ∧
    (update_job_name s id nm).jobs_completed_queue.map Job.status =
      s.jobs_completed_queue.map Job.status ∧
    (update_job_name s id nm).jobs_completed_queue.map Job.job_id =
      s.jobs_completed_queue.map Job.job_id := by
  refine ⟨?_, ?_, ?_⟩
  · intro j hj hid
    simp only [allJobs, update_job_name, List.mem_append, List.mem_map] at hj
    rcases hj with ((⟨a, _, rfl⟩ | ⟨a, _, rfl⟩) | ⟨a, _, rfl⟩) | ⟨a, _, rfl⟩ <;>
      exact renameJob_name id nm a hid
  · simp only [update_job_name, List.map_map]
    apply List.map_congr_left
    intro a _
    exact (renameJob_frame id nm a).1
  · simp only [update_job_name, List.map_map]
    apply List.map_congr_left
    intro a _
    exact (renameJob_frame id nm a).2

/-- Witness for C5: the completed job with id 7 can be renamed. -/
theorem claim_C5_rename_witness :
    ({ completedJob7 with job_name := "renamed" } : Job).job_name = "renamed" :=
  (claim_C5_rename completedState 7 "renamed").1
    { completedJob7 with job_name := "renamed" } (by decide) (by decide)

/-- Setting a key in a kwargs dict makes lookup of that key return the new
value. -/
theorem lookup_kwSet (l : List (String × Int)) (k : String) (v : Int) :
    List.lookup k (kwSet l k v) = some v := by
  induction l with
  | nil => simp [kwSet, List.lookup]
  | cons p rest ih =>
    rcases p with ⟨k0, v0⟩
    by_cases h : k0 = k
    · simp [kwSet, h, List.lookup]
    · have h2 : (k == k0) = false := beq_eq_false_iff_ne.mpr (fun hc => h hc.symm)
      simp [kwSet, if_neg h, List.lookup, h2, ih]

/-- C6 counterexample: `job_id` injection does NOT consult the callee's
declared parameters — even for a callee declaring no parameters at all, the
kwargs passed to it contain `job_id` after injection. -/
theorem claim_C6_counterexample :
    ¬ (∀ (declaredParams : List String) (job : Job), "job_id" ∉ declaredParams →
        List.lookup "job_id" ((injectJobId job).kwargs) = none) := by
  intro h
  exact absurd (h [] jA (by simp)) (by decide)

/-- C6 amended: the consumer injects `job_id` into a job's kwargs whenever
kwargs lacks a truthy `job_id` entry — unconditionally, regardless of the
callee's signature — and preserves an existing truthy `job_id` entry. -/
theorem claim_C6_amended (job : Job) :
    List.lookup "job_id" ((injectJobId job).kwargs) =
      some (match List.lookup "job_id" job.kwargs with
            | none => (job.job_id : Int)
            | some v => if v = 0 then (job.job_id : Int) else v) := by
  rcases hl : List.lookup "job_id" job.kwargs with _ | v
  · simp [injectJobId, hl, lookup_kwSet]
  · by_cases hv : v = 0 <;> simp [injectJobId, hl, hv, lookup_kwSet]

/-- C7 counterexample: `last_run_time` is NOT only the running-transition
timestamp — after a job completes, its `last_run_time` holds the later
terminal-transition time, not the time at which it entered `running`. -/
theorem claim_C7_counterexample :
    ¬ (∀ (env : Dispatch) (s : QueueState) (j : Job) (rest : List Job),
        s.jobs_pending_queue = j :: rest →
        ∀ jc ∈ (runOneJob env s).1.jobs_completed_queue,
          jc.job_id = j.job_id → jc.last_run_time = s.now) := by
  intro h
  exact absurd (h envOkAll pendingTwoState jA [jB] rfl) (by decide)

/-- C7 amended: `last_run_time` is stamped with the current time at job
creation, at the transition into `running`, and re-stamped at the terminal
transition into `failed` or `completed`; it records the job's most recent
lifecycle transition rather than only the transition into `running`. -/
theorem claim_C7_amended (env : Dispatch) (s : QueueState) (j : Job) (rest : List Job)
    (hp : s.jobs_pending_queue = j :: rest) :
    (∀ (i : Nat) (nm md fn : String) (a : List Int) (k : List (String × Int))
       (ip : Bool) (pm : Int) (t : Nat), (mkJob i nm md fn a k ip pm t).last_run_time = t) ∧
    (preparedJob s.now j).last_run_time = s.now ∧
    ∃ jt, jt.job_id = j.job_id ∧ jt.last_run_time = s.now + 1 ∧
      (((runOneJob env s).1.jobs_completed_queue =
          boundedAppend 10 s.jobs_completed_queue jt ∧
        (runOneJob env s).1.jobs_failed_queue = s.jobs_failed_queue ∧
        jt.status = JobStatus.completed) ∨
       ((runOneJob env s).1.jobs_failed_queue = boundedAppend 10 s.jobs_failed_queue jt ∧
        (runOneJob env s).1.jobs_completed_queue = s.jobs_completed_queue ∧
        jt.status = JobStatus.failed)) := by
  refine ⟨fun i nm md fn a k ip pm t => rfl, preparedJob_last_run_time s.now j, ?_⟩
  rcases henv : invokeJob env (preparedJob s.now j) with e | v
  · have heq := runOneJob_eq_err env s j rest e hp henv
    refine ⟨{ preparedJob s.now j with status := JobStatus.failed, last_run_time := s.now + 1 },
      ?_, rfl, Or.inr ⟨?_, ?_, rfl⟩⟩
    · simpa using preparedJob_job_id s.now j
    · rw [heq]
    · rw [heq]
  · have heq := runOneJob_eq_ok env s j rest v hp henv
    refine ⟨{ preparedJob s.now j with
        job_returned_value := some v
        status := JobStatus.completed
        last_run_time := s.now + 1 },
      ?_, rfl, Or.inl ⟨?_, ?_, rfl⟩⟩
    · simpa using preparedJob_job_id s.now j
    · rw [heq]
    · rw [heq]

/-- Witness for C7 amended: the prepared job of the concrete two-job state
carries the pop-time stamp. -/
theorem claim_C7_amended_witness :
    (preparedJob pendingTwoState.now jA).last_run_time = pendingTwoState.now :=
  (claim_C7_amended envOkAll pendingTwoState jA [jB] rfl).2.1

/-- A list already within the retention bound is retained whole. -/
theorem lastN_of_le (n : Nat) (l : List Nat) (h : l.length ≤ n) : lastN n l = l := by
  unfold lastN
  rw [Nat.sub_eq_zero_of_le h, List.drop_zero]

/-- Truncating to the `n` most recent elements before appending more gives
the same `n` most recent elements as appending first. -/
theorem lastN_append_absorb (n : Nat) (a b : List Nat) :
    lastN n (lastN n a ++ b) = lastN n (a ++ b) := by
  unfold lastN
  rcases le_or_lt a.length n with hle | hlt
  · rw [Nat.sub_eq_zero_of_le hle, List.drop_zero]
  · have hd : a.length - n ≤ a.length := Nat.sub_le _ _
    rw [← List.drop_append_of_le_length hd, List.drop_drop]
    congr 1
    simp only [List.length_drop, List.length_append]
    omega

/-- A bounded-ring append retains the `maxlen` most recent ids. -/
theorem boundedAppend_map_id (n : Nat) (q : List Job) (j : Job) :
    (boundedAppend n q j).map Job.job_id = lastN n (q.map Job.job_id ++ [j.job_id]) := by
  unfold boundedAppend lastN
  rw [List.map_drop, List.map_append]
  simp

/-- A bounded-ring append never exceeds the capacity. -/
theorem boundedAppend_length_le (n : Nat) (q : List Job) (j : Job) :
    (boundedAppend n q j).length ≤ n := by
  unfold boundedAppend
  simp only [List.length_drop, List.length_append, List.length_singleton]
  omega

/-- Draining under an environment where every call succeeds: the completed
ring ends holding the 10 most recent job ids of the old ring followed by
the executed jobs, and the failed ring is untouched. -/
theorem drainAux_all_ok (env : Dispatch)
    (hok : ∀ m f a k, ∃ v, env m f a k = Except.ok v) :
    ∀ (fuel : Nat) (s : QueueState), s.jobs_pending_queue.length ≤ fuel →
      s.jobs_completed_queue.length ≤ 10 →
      (drainAux env fuel s).1.jobs_completed_queue.map Job.job_id =
        lastN 10 (s.jobs_completed_queue.map Job.job_id ++
          s.jobs_pending_queue.map Job.job_id) ∧
      (drainAux env fuel s).1.jobs_failed_queue = s.jobs_failed_queue := by
  intro fuel
  induction fuel with
  | zero =>
    intro s h hc10
    have hnil : s.jobs_pending_queue = [] := List.length_eq_zero.mp (Nat.le_zero.mp h)
    rw [hnil]
    simp only [drainAux, List.map_nil, List.append_nil]
    exact ⟨(lastN_of_le 10 _ (by simpa using hc10)).symm, trivial⟩
  | succ n ih =>
    intro s h hc10
    rcases hp : s.jobs_pending_queue with _ | ⟨j, rest⟩
    · simp only [drainAux, hp, List.map_nil, List.append_nil]
      exact ⟨(lastN_of_le 10 _ (by simpa using hc10)).symm, trivial⟩
    · have hlen : rest.length ≤ n := by
        rw [hp] at h
        simpa using h
      obtain ⟨v, hv⟩ := hok (preparedJob s.now j).module (preparedJob s.now j).func
        (preparedJob s.now j).args (preparedJob s.now j).kwargs
      have henv : invokeJob env (preparedJob s.now j) = Except.ok v := hv
      have heq := runOneJob_eq_ok env s j rest v hp henv
      have ihs := ih (runOneJob env s).1 (by rw [heq]; simpa using hlen)
        (by rw [heq]; simpa using boundedAppend_length_le 10 s.jobs_completed_queue _)
      simp only [drainAux, hp]
      refine ⟨?_, ?_⟩
      · rw [ihs.1, heq]
        simp only
        rw [boundedAppend_map_id, lastN_append_absorb]
        have hid : ({ preparedJob s.now j with
            job_returned_value := some v
            status := JobStatus.completed
            last_run_time := s.now + 1 } : Job).job_id = j.job_id := by
          simpa using preparedJob_job_id s.now j
        rw [hid]
        simp
      · rw [ihs.2, heq]

/-- Draining under an environment where every call raises: the failed ring
ends holding the 10 most recent job ids, and the completed ring is
untouched. -/
theorem drainAux_all_err (env : Dispatch)
    (herr : ∀ m f a k, ∃ e, env m f a k = Except.error e) :
    ∀ (fuel : Nat) (s : QueueState), s.jobs_pending_queue.length ≤ fuel →
      s.jobs_failed_queue.length ≤ 10 →
      (drainAux env fuel s).1.jobs_failed_queue.map Job.job_id =
        lastN 10 (s.jobs_failed_queue.map Job.job_id ++
          s.jobs_pending_queue.map Job.job_id) ∧
      (drainAux env fuel s).1.jobs_completed_queue = s.jobs_completed_queue := by
  intro fuel
  induction fuel with
  | zero =>
    intro s h hf10
    have hnil : s.jobs_pending_queue = [] := List.length_eq_zero.mp (Nat.le_zero.mp h)
    rw [hnil]
    simp only [drainAux, List.map_nil, List.append_nil]
    exact ⟨(lastN_of_le 10 _ (by simpa using hf10)).symm, trivial⟩
  | succ n ih =>
    intro s h hf10
    rcases hp : s.jobs_pending_queue with _ | ⟨j, rest⟩
    · simp only [drainAux, hp, List.map_nil, List.append_nil]
      exact ⟨(lastN_of_le 10 _ (by simpa using hf10)).symm, trivial⟩
    · have hlen : rest.length ≤ n := by
        rw [hp] at h
        simpa using h
      obtain ⟨e, he⟩ := herr (preparedJob s.now j).module (preparedJob s.now j).func
        (preparedJob s.now j).args (preparedJob s.now j).kwargs
      have henv : invokeJob env (preparedJob s.now j) = Except.error e := he
      have heq := runOneJob_eq_err env s j rest e hp henv
      have ihs := ih (runOneJob env s).1 (by rw [heq]; simpa using hlen)
        (by rw [heq]; simpa using boundedAppend_length_le 10 s.jobs_failed_queue _)
      simp only [drainAux, hp]
      refine ⟨?_, ?_⟩
      · rw [ihs.1, heq]
        simp only
        rw [boundedAppend_map_id, lastN_append_absorb]
        have hid : ({ preparedJob s.now j with
            status := JobStatus.failed
            last_run_time := s.now + 1 } : Job).job_id = j.job_id := by
          simpa using preparedJob_job_id s.now j
        rw [hid]
        simp
      · rw [ihs.2, heq]

/-- C9 (bounded retention): starting from empty rings, running 11 pending
jobs that all succeed leaves the completed ring (capacity 10) holding
exactly the 10 most recently completed job ids, the oldest evicted; the
identical property holds for the failed ring when all 11 jobs fail. -/
theorem claim_C9_bounded_retention (s : QueueState)
    (hc : s.jobs_completed_queue = []) (hf : s.jobs_failed_queue = [])
    (hlen : s.jobs_pending_queue.length = 11) :
    (∀ env : Dispatch, (∀ m f a k, ∃ v, env m f a k = Except.ok v) →
       (drain env s).1.jobs_completed_queue.map Job.job_id =
         (s.jobs_pending_queue.map Job.job_id).drop 1 ∧
       (drain env s).1.jobs_failed_queue = []) ∧
    (∀ env : Dispatch, (∀ m f a k, ∃ e, env m f a k = Except.error e) →
       (drain env s).1.jobs_failed_queue.map Job.job_id =
         (s.jobs_pending_queue.map Job.job_id).drop 1 ∧
       (drain env s).1.jobs_completed_queue = []) := by
  constructor
  · intro env hok
    have h := drainAux_all_ok env hok s.jobs_pending_queue.length s le_rfl
      (by simp [hc])
    unfold drain
    refine ⟨?_, by rw [h.2, hf]⟩
    rw [h.1, hc]
    simp [lastN, hlen]
  · intro env herr
    have h := drainAux_all_err env herr s.jobs_pending_queue.length s le_rfl
      (by simp [hf])
    unfold drain
    refine ⟨?_, by rw [h.2, hc]⟩
    rw [h.1, hf]
    simp [lastN, hlen]

/-- Witness for C9: 11 concrete succeeding jobs leave the completed ring
holding ids 2 through 11 and the failed ring empty. -/
theorem claim_C9_bounded_retention_witness :
    (drain envOkAll elevenState).1.jobs_completed_queue.map Job.job_id =
      (elevenState.jobs_pending_queue.map Job.job_id).drop 1 ∧
    (drain envOkAll elevenState).1.jobs_failed_queue = [] :=
  (claim_C9_bounded_retention elevenState rfl rfl (by decide)).1 envOkAll
    (fun _ _ _ _ => ⟨7, rfl⟩)

end Bazarr
